import Mathlib

/-!
Verification development for the news digest repository.

Shallow embedding of the two core mechanisms of the repository:

* the delivery dedup flow of `scripts/send_digest.py` (`main`, lines 220-275):
  filtering feed items against the persisted `sent_links` store and updating
  that store;
* the multi-round coverage loop of `scripts/digest.py`
  (`run_full_digest`, lines 377-478): repeated oracle calls over the set of
  item URLs not yet used by any returned topic, plus a final extra oracle
  call for leftovers.

The external LLM calls are modelled as function parameters (an arbitrary
response per round for the main loop; an optional response for the final
leftover call, `none` standing for a raised exception or unparsable reply,
exactly the cases caught by the `try/except` in the source).
-/

/-- Python `str.strip()` whitespace test for the ASCII whitespace characters
Python strips (space, tab, newline, carriage return, vertical tab, form feed). -/
def isPySpace (c : Char) : Bool :=
  c = ' ' || c = '\t' || c = '\n' || c = '\r' || c = '\x0b' || c = '\x0c'

/-- Python `s.strip()`: remove leading and trailing whitespace. -/
def pyStrip (s : String) : String :=
  String.mk (((s.toList.dropWhile isPySpace).reverse.dropWhile isPySpace).reverse)

/-! ## Model of `scripts/send_digest.py` (delivery dedup) -/

/-- One feed item as produced by `extract_items` in `scripts/send_digest.py`
(lines 111-116): `title`, `link`, `description_html`.  The `pub_dt` field is
used only for sorting before `main` runs and never by the dedup logic, so it
is omitted. -/
structure SItem where
  title : String
  link : String
  descriptionHtml : String
deriving DecidableEq, Repr

/-- `SENT_LINKS_LIMIT = 300` from `scripts/send_digest.py` line 28. -/
def SENT_LINKS_LIMIT : Nat := 300

/-- The identity key the dedup in `scripts/send_digest.py` actually uses:
`link = (x.get("link") or "").strip()` (line 238); an item whose stripped
link is empty is skipped (`if not link: continue`, line 239) and has no key. -/
def deriveKey (x : SItem) : Option String :=
  let l := pyStrip x.link
  if l = "" then none else some l

/-- The `new_items` loop of `scripts/send_digest.py` lines 236-243: keep the
items whose stripped link is non-empty and not in the `sent_links` set. -/
def newItemsOf (items : List SItem) (store : List String) : List SItem :=
  items.filter (fun x => decide (pyStrip x.link ≠ "" ∧ pyStrip x.link ∉ store))

/-- First-seen de-duplication, the `seen`/`deduped` loop of
`scripts/send_digest.py` lines 267-273. -/
def dedupFS (seen : List String) : List String → List String
  | [] => []
  | x :: xs => if x ∈ seen then dedupFS seen xs else x :: dedupFS (x :: seen) xs

/-- Result of one dedup-and-send run. `newOnes` is `new_items` before the
`MAX_ITEMS` cap (lines 236-243), `delivered` is `new_items[:MAX_ITEMS]`
(line 254, the list actually emailed), `updatedStore` is the persisted
`state["sent_links"]` after the run. -/
structure FilterResult where
  newOnes : List SItem
  delivered : List SItem
  updatedStore : List String
deriving DecidableEq, Repr

/-- The dedup flow of `main` in `scripts/send_digest.py` with `FORCE_SEND=0`
(the default).  `enum` models `list(sent_links)` at line 266: Python
enumerates the *set* `sent_links` in an unspecified order, so the embedding
takes that enumeration as a parameter; theorems below constrain it only by
membership agreement with `store`.  If no item is new the function returns
before sending or saving state (lines 246-248), leaving the store unchanged.
Otherwise the store update follows lines 266-274: append the delivered items'
non-empty stripped links to `enum`, de-duplicate keeping first occurrences,
and keep the last `SENT_LINKS_LIMIT` entries (`deduped[-SENT_LINKS_LIMIT:]`). -/
def filterNewWith (enum : List String) (maxItems : Nat)
    (items : List SItem) (store : List String) : FilterResult :=
  let new := newItemsOf items store
  if new = [] then ⟨new, [], store⟩
  else
    let delivered := new.take maxItems
    let appended :=
      enum ++ (delivered.map (fun x => pyStrip x.link)).filter (fun l => decide (l ≠ ""))
    let deduped := dedupFS [] appended
    ⟨new, delivered, deduped.drop (deduped.length - SENT_LINKS_LIMIT)⟩

/-! ## Model of `run_full_digest` in `scripts/digest.py` (coverage loop) -/

/-- One raw news record as read by `run_full_digest`; only the `url` and
`link` fields drive the engine's control flow (line 385:
`url = (it.get("url") or it.get("link") or "").strip()`); the textual fields
are consumed solely by the oracle, which is abstracted below. -/
structure DItem where
  url : String
  link : String
deriving DecidableEq, Repr

/-- One parsed topic from the model's JSON reply: `title`, `summary`,
`links` (`scripts/digest.py` lines 113-123). -/
structure PyTopic where
  title : String
  summary : String
  links : List String
deriving DecidableEq, Repr

/-- The key of one item, `scripts/digest.py` line 385:
`(it.get("url") or it.get("link") or "").strip()` — Python `or` takes the
first non-empty string, then strips. -/
def itemUrl (it : DItem) : String :=
  pyStrip (if it.url = "" then it.link else it.url)

/-- The key set of `url_to_item` built at lines 384-389: every non-empty
stripped url of the batch (`all_urls`, line 389). -/
def validUrlSet (items : List DItem) : Finset String :=
  ((items.map itemUrl).filter (fun u => decide (u ≠ ""))).toFinset

/-- All link strings of a list of topics, in order (the nested
`for t in topics: for u in t.links` traversal). -/
def topicsLinks (topics : List PyTopic) : List String :=
  topics.foldr (fun t acc => t.links ++ acc) []

/-- `used_urls` of one round, `scripts/digest.py` lines 411-417: the stripped
links of the returned topics that are still in `remaining_urls`. -/
def usedUrls (topics : List PyTopic) (remaining : Finset String) : Finset String :=
  ((topicsLinks topics).map pyStrip).toFinset ∩ remaining

/-- The set of stripped links over all returned topics — the "memberKeys"
union the coverage claims speak about. -/
def topicsKeyUnion (topics : List PyTopic) : Finset String :=
  ((topicsLinks topics).map pyStrip).toFinset

/-- The round loop of `run_full_digest`, `scripts/digest.py` lines 393-427.
`oracle round` is the parsed topic list `call_openai_for_digest` returns in
that round (`[]` covers an API error, a JSON error and an empty `topics`
array alike — all three return `[]` at lines 197-223, and the loop breaks on
it at line 404).  Per round: break if `remaining` is empty (line 394), break
on an empty reply (line 404), extend `all_topics` with the reply verbatim
(line 408), remove the reply's still-remaining stripped links from
`remaining` (lines 411-422), break if that removed nothing (lines 425-427). -/
def engineRounds (oracle : Nat → List PyTopic) :
    Nat → Nat → Finset String → List PyTopic → Finset String × List PyTopic
  | 0, _, remaining, acc => (remaining, acc)
  | fuel + 1, round, remaining, acc =>
    if remaining = ∅ then (remaining, acc)
    else
      let topics := oracle round
      if topics = [] then (remaining, acc)
      else
        let used := usedUrls topics remaining
        if used = ∅ then (remaining \ used, acc ++ topics)
        else engineRounds oracle fuel (round + 1) (remaining \ used) (acc ++ topics)

/-- `run_full_digest`, `scripts/digest.py` lines 377-478: run the round loop
starting from `all_urls`, then, if urls remain, make one extra oracle call
for the leftover items (lines 431-477).  `oracleFallback` returns `some ts`
when that call parses into a topic list `ts` (then `all_topics` is extended
with it, line 474) and `none` when it raises — the `except` at lines 475-476
swallows the error and nothing is appended. -/
def runFullDigest (oracleMain : Nat → List PyTopic)
    (oracleFallback : Finset String → Option (List PyTopic))
    (items : List DItem) (maxRounds : Nat) : List PyTopic :=
  let res := engineRounds oracleMain maxRounds 1 (validUrlSet items) []
  if res.1 = ∅ then res.2
  else
    match oracleFallback res.1 with
    | some extra => res.2 ++ extra
    | none => res.2

/-! ## Concrete fixtures used by counterexamples and witnesses -/

/-- Feed item with title `A` and link `a`. -/
def sItemA : SItem := ⟨"A", "a", ""⟩

/-- Feed item with title `B` and link `b`. -/
def sItemB : SItem := ⟨"B", "b", ""⟩

/-- Feed item with no link but a body containing an absolute URL — the
situation the spec's content-hash fallback is meant for. -/
def sItemNoLink : SItem := ⟨"t", "", "See https://x.test/a"⟩

/-- Feed item whose link is whitespace only. -/
def sItemBlankLink : SItem := ⟨"W", "  ", ""⟩

/-- Digest item whose url is `a`. -/
def dItemA : DItem := ⟨"a", ""⟩

/-- Oracle that always replies with an empty topic list (covers an API
error, a JSON parse failure and a literally empty `topics` array). -/
def oracleEmpty : Nat → List PyTopic := fun _ => []

/-- Leftover-call behaviour: the call raises (caught by the `except`). -/
def fbFail : Finset String → Option (List PyTopic) := fun _ => none

/-- Leftover-call behaviour: the call parses into an empty topic list. -/
def fbEmpty : Finset String → Option (List PyTopic) := fun _ => some []

/-- A one-member topic claiming url `a`. -/
def topicSingle : PyTopic := ⟨"t", "s", ["a"]⟩

/-- Oracle that always returns the one-member topic `topicSingle`. -/
def oracleSingle : Nat → List PyTopic := fun _ => [topicSingle]

/-- First of two topics that both claim url `a`. -/
def topicDup1 : PyTopic := ⟨"t1", "s", ["a"]⟩

/-- Second of two topics that both claim url `a`. -/
def topicDup2 : PyTopic := ⟨"t2", "s", ["a"]⟩

/-- Oracle returning two topics that both claim the same url. -/
def oracleDup : Nat → List PyTopic := fun _ => [topicDup1, topicDup2]

/-- Topic listing the supplied url `a` and a hallucinated url `hX`. -/
def topicHall : PyTopic := ⟨"t", "s", ["a", "hX"]⟩

/-- Oracle returning `topicHall`. -/
def oracleHall : Nat → List PyTopic := fun _ => [topicHall]

/-- Leftover-call behaviour producing summary text `x`. -/
def fbX : Finset String → Option (List PyTopic) := fun _ => some [⟨"Leftover", "x", []⟩]

/-- Leftover-call behaviour producing summary text `y`. -/
def fbY : Finset String → Option (List PyTopic) := fun _ => some [⟨"Leftover", "y", []⟩]

/-! ## Helper lemmas: the dedup store -/

theorem mem_newItemsOf {x : SItem} {items : List SItem} {store : List String} :
    x ∈ newItemsOf items store ↔
      x ∈ items ∧ pyStrip x.link ≠ "" ∧ pyStrip x.link ∉ store := by
  simp [newItemsOf, List.mem_filter]

theorem newOnes_eq (enum : List String) (maxItems : Nat)
    (items : List SItem) (store : List String) :
    (filterNewWith enum maxItems items store).newOnes = newItemsOf items store := by
  by_cases h : newItemsOf items store = [] <;> simp [filterNewWith, h]

theorem mem_dedupFS {u : String} :
    ∀ (l seen : List String), u ∈ dedupFS seen l ↔ u ∈ l ∧ u ∉ seen := by
  intro l
  induction l with
  | nil => intro seen; simp [dedupFS]
  | cons x xs ih =>
    intro seen
    by_cases hx : x ∈ seen
    · simp only [dedupFS, if_pos hx, ih, List.mem_cons]
      constructor
      · rintro ⟨h1, h2⟩; exact ⟨Or.inr h1, h2⟩
      · rintro ⟨h1 | h1, h2⟩
        · exact absurd (h1 ▸ hx) h2
        · exact ⟨h1, h2⟩
    · simp only [dedupFS, if_neg hx, List.mem_cons, ih]
      constructor
      · rintro (rfl | ⟨h1, h2⟩)
        · exact ⟨Or.inl rfl, hx⟩
        · exact ⟨Or.inr h1, fun hs => h2 (Or.inr hs)⟩
      · rintro ⟨rfl | h1, h2⟩
        · exact Or.inl rfl
        · by_cases hux : u = x
          · exact Or.inl hux
          · refine Or.inr ⟨h1, fun hs => ?_⟩
            rcases hs with h | h
            · exact hux h
            · exact h2 h

theorem key_ne_empty_of_mem_newItemsOf {x : SItem} {items : List SItem}
    {store : List String} (h : x ∈ newItemsOf items store) :
    pyStrip x.link ≠ "" ∧ pyStrip x.link ∉ store :=
  ⟨(mem_newItemsOf.mp h).2.1, (mem_newItemsOf.mp h).2.2⟩

/-- Membership in the updated store, with no assumption about eviction:
every entry comes from the old store, from the set enumeration, or is the
non-empty key of a delivered item. -/
theorem mem_updatedStore_cases {u : String} {enum : List String} {maxItems : Nat}
    {items : List SItem} {store : List String}
    (h : u ∈ (filterNewWith enum maxItems items store).updatedStore) :
    u ∈ store ∨ u ∈ enum ∨
      (∃ x ∈ (newItemsOf items store).take maxItems, pyStrip x.link = u ∧ u ≠ "") := by
  by_cases hnew : newItemsOf items store = []
  · simp only [filterNewWith, hnew, if_pos rfl] at h
    exact Or.inl h
  · simp only [filterNewWith, if_neg hnew] at h
    have h2 := List.drop_subset _ _ h
    rw [mem_dedupFS] at h2
    rcases List.mem_append.mp h2.1 with h3 | h3
    · exact Or.inr (Or.inl h3)
    · rcases List.mem_filter.mp h3 with ⟨h4, h5⟩
      rcases List.mem_map.mp h4 with ⟨x, hx, hkey⟩
      refine Or.inr (Or.inr ⟨x, hx, hkey, ?_⟩)
      simpa using of_decide_eq_true h5

/-- Membership in the updated store when no eviction happens: exactly the
old keys plus the delivered items' keys.  `henum` says the enumeration of
`set(sent_links)` has the same members as the stored list; `hnoev` says the
de-duplicated combined list fits within `SENT_LINKS_LIMIT`. -/
theorem mem_updatedStore_iff (enum : List String) (maxItems : Nat)
    (items : List SItem) (store : List String) (u : String)
    (henum : ∀ v, v ∈ enum ↔ v ∈ store)
    (hnoev :
      (dedupFS [] (enum ++
        (((newItemsOf items store).take maxItems).map (fun x => pyStrip x.link)).filter
          (fun l => decide (l ≠ "")))).length ≤ SENT_LINKS_LIMIT) :
    u ∈ (filterNewWith enum maxItems items store).updatedStore ↔
      u ∈ store ∨ ∃ x ∈ (newItemsOf items store).take maxItems, pyStrip x.link = u := by
  by_cases hnew : newItemsOf items store = []
  · simp [filterNewWith, hnew]
  · simp only [filterNewWith, if_neg hnew]
    rw [Nat.sub_eq_zero_of_le hnoev, List.drop_zero, mem_dedupFS]
    simp only [List.not_mem_nil, not_false_iff, and_true, List.mem_append,
      List.mem_filter, List.mem_map, henum]
    constructor
    · rintro (h | ⟨⟨x, hx, hkey⟩, _⟩)
      · exact Or.inl h
      · exact Or.inr ⟨x, hx, hkey⟩
    · rintro (h | ⟨x, hx, hkey⟩)
      · exact Or.inl h
      · refine Or.inr ⟨⟨x, hx, hkey⟩, ?_⟩
        have := (key_ne_empty_of_mem_newItemsOf (List.take_subset _ _ hx)).1
        simp [hkey ▸ this]

/-! ## Helper lemmas: the coverage engine -/

theorem topicsLinks_append (a b : List PyTopic) :
    topicsLinks (a ++ b) = topicsLinks a ++ topicsLinks b := by
  induction a with
  | nil => simp [topicsLinks]
  | cons t ts ih =>
    show t.links ++ topicsLinks (ts ++ b) = (t.links ++ topicsLinks ts) ++ topicsLinks b
    rw [ih, List.append_assoc]

theorem topicsKeyUnion_append (a b : List PyTopic) :
    topicsKeyUnion (a ++ b) = topicsKeyUnion a ∪ topicsKeyUnion b := by
  simp [topicsKeyUnion, topicsLinks_append]

/-- The loop only appends to `all_topics`. -/
theorem engineRounds_acc_prefix (o : Nat → List PyTopic) :
    ∀ (fuel round : Nat) (R : Finset String) (acc : List PyTopic),
      ∃ s, (engineRounds o fuel round R acc).2 = acc ++ s := by
  intro fuel
  induction fuel with
  | zero => intro round R acc; exact ⟨[], by simp [engineRounds]⟩
  | succ n ih =>
    intro round R acc
    by_cases hR : R = ∅
    · exact ⟨[], by simp [engineRounds, hR]⟩
    · by_cases ht : o round = []
      · exact ⟨[], by simp [engineRounds, hR, ht]⟩
      · by_cases hu : usedUrls (o round) R = ∅
        · exact ⟨o round, by simp [engineRounds, hR, ht, hu]⟩
        · obtain ⟨s, hs⟩ := ih (round + 1) (R \ usedUrls (o round) R) (acc ++ o round)
          exact ⟨o round ++ s, by simp [engineRounds, hR, ht, hu, hs]⟩

/-- `remaining_urls` only ever shrinks. -/
theorem engineRounds_remaining_subset (o : Nat → List PyTopic) :
    ∀ (fuel round : Nat) (R : Finset String) (acc : List PyTopic),
      (engineRounds o fuel round R acc).1 ⊆ R := by
  intro fuel
  induction fuel with
  | zero => intro round R acc; simp [engineRounds]
  | succ n ih =>
    intro round R acc
    by_cases hR : R = ∅
    · simp [engineRounds, hR]
    · by_cases ht : o round = []
      · simp [engineRounds, hR, ht]
      · by_cases hu : usedUrls (o round) R = ∅
        · simp [engineRounds, hR, ht, hu]
        · have hrec : engineRounds o (n + 1) round R acc
              = engineRounds o n (round + 1) (R \ usedUrls (o round) R) (acc ++ o round) := by
            simp [engineRounds, hR, ht, hu]
          rw [hrec]
          exact (ih (round + 1) (R \ usedUrls (o round) R) (acc ++ o round)).trans
            (Finset.sdiff_subset)

/-- Every url removed from `remaining_urls` by the loop occurs, stripped,
among the links of the accumulated topics. -/
theorem engineRounds_covered (o : Nat → List PyTopic) :
    ∀ (fuel round : Nat) (R : Finset String) (acc : List PyTopic),
      R \ (engineRounds o fuel round R acc).1
        ⊆ topicsKeyUnion (engineRounds o fuel round R acc).2 := by
  intro fuel
  induction fuel with
  | zero => intro round R acc; simp [engineRounds]
  | succ n ih =>
    intro round R acc
    by_cases hR : R = ∅
    · simp [engineRounds, hR]
    · by_cases ht : o round = []
      · simp [engineRounds, ht]
      · by_cases hu : usedUrls (o round) R = ∅
        · simp [engineRounds, hR, ht, hu]
        · have hrec : engineRounds o (n + 1) round R acc
              = engineRounds o n (round + 1) (R \ usedUrls (o round) R) (acc ++ o round) := by
            simp [engineRounds, hR, ht, hu]
          rw [hrec]
          intro x hx
          rcases Finset.mem_sdiff.mp hx with ⟨hxR, hxnot⟩
          by_cases hx2 : x ∈ R \ usedUrls (o round) R
          · exact ih (round + 1) (R \ usedUrls (o round) R) (acc ++ o round)
              (Finset.mem_sdiff.mpr ⟨hx2, hxnot⟩)
          · have hxu : x ∈ usedUrls (o round) R := by
              by_contra hcon
              exact hx2 (Finset.mem_sdiff.mpr ⟨hxR, hcon⟩)
            have hxk : x ∈ topicsKeyUnion (o round) :=
              Finset.mem_of_mem_inter_left hxu
            obtain ⟨s, hs⟩ :=
              engineRounds_acc_prefix o n (round + 1) (R \ usedUrls (o round) R)
                (acc ++ o round)
            rw [hs, topicsKeyUnion_append, topicsKeyUnion_append]
            exact Finset.mem_union_left _ (Finset.mem_union_right _ hxk)

/-- Every topic the loop accumulates is either already accumulated or
verbatim part of some oracle reply. -/
theorem engineRounds_topics_from_oracle (o : Nat → List PyTopic) :
    ∀ (fuel round : Nat) (R : Finset String) (acc : List PyTopic) (t : PyTopic),
      t ∈ (engineRounds o fuel round R acc).2 → t ∈ acc ∨ ∃ r, t ∈ o r := by
  intro fuel
  induction fuel with
  | zero => intro round R acc t h; exact Or.inl (by simpa [engineRounds] using h)
  | succ n ih =>
    intro round R acc t h
    by_cases hR : R = ∅
    · exact Or.inl (by simpa [engineRounds, hR] using h)
    · by_cases ht : o round = []
      · exact Or.inl (by simpa [engineRounds, hR, ht] using h)
      · by_cases hu : usedUrls (o round) R = ∅
        · have h2 : t ∈ acc ++ o round := by simpa [engineRounds, hR, ht, hu] using h
          rcases List.mem_append.mp h2 with h3 | h3
          · exact Or.inl h3
          · exact Or.inr ⟨round, h3⟩
        · have hrec : engineRounds o (n + 1) round R acc
              = engineRounds o n (round + 1) (R \ usedUrls (o round) R) (acc ++ o round) := by
            simp [engineRounds, hR, ht, hu]
          rw [hrec] at h
          rcases ih (round + 1) (R \ usedUrls (o round) R) (acc ++ o round) t h with h3 | h3
          · rcases List.mem_append.mp h3 with h4 | h4
            · exact Or.inl h4
            · exact Or.inr ⟨round, h4⟩
          · exact Or.inr h3

/-- With an oracle that always replies with an empty topic list the loop is
a no-op: it breaks in its first round. -/
theorem engineRounds_emptyOracle (fuel round : Nat) (R : Finset String)
    (acc : List PyTopic) :
    engineRounds (fun _ => []) fuel round R acc = (R, acc) := by
  cases fuel with
  | zero => rfl
  | succ n => simp [engineRounds]

/-- The emailed list is always the capped prefix of the new items
(`new_items = new_items[:MAX_ITEMS]`, `scripts/send_digest.py` line 254). -/
theorem delivered_eq_take (enum : List String) (m : Nat) (items : List SItem)
    (store : List String) :
    (filterNewWith enum m items store).delivered = (newItemsOf items store).take m := by
  by_cases h : newItemsOf items store = [] <;> simp [filterNewWith, h]

/-! ## Claims about the coverage engine (C1-C5) -/

/-- C1: the claim states that the union of `memberKeys` over the returned
Topics equals the batch's valid-key set, each key in exactly one Topic, for
any oracle behaviour.  This is false in `run_full_digest`: with one valid
item, an oracle that replies with no drafts and a leftover call that raises,
the run returns no topics at all, so the item is omitted; and an oracle
returning two topics that both list the same url yields that key inside two
distinct returned Topics. -/
theorem C1_cex_coverage_fails :
    topicsKeyUnion (runFullDigest oracleEmpty fbFail [dItemA] 3) ≠ validUrlSet [dItemA]
    ∧ runFullDigest oracleDup fbFail [dItemA] 3 = [topicDup1, topicDup2]
    ∧ "a" ∈ topicDup1.links ∧ "a" ∈ topicDup2.links ∧ topicDup1 ≠ topicDup2 := by
  decide

/-- C1 (amended): every valid-key url the engine removes from its remaining
set appears, stripped, among the links of at least one returned Topic;
full equality with the valid-key set and the exactly-once property do not
hold (keys may be omitted when the oracle never uses them and the leftover
call fails, hallucinated links may be present, and a key may recur across
Topics). -/
theorem C1_thm_assigned_urls_appear (oM : Nat → List PyTopic)
    (oF : Finset String → Option (List PyTopic)) (items : List DItem) (n : Nat) :
    validUrlSet items \ (engineRounds oM n 1 (validUrlSet items) []).1
      ⊆ topicsKeyUnion (runFullDigest oM oF items n) := by
  intro x hx
  have h1 := engineRounds_covered oM n 1 (validUrlSet items) [] hx
  simp only [runFullDigest]
  by_cases hR : (engineRounds oM n 1 (validUrlSet items) []).1 = ∅
  · simpa [hR] using h1
  · cases hfb : oF (engineRounds oM n 1 (validUrlSet items) []).1 with
    | none => simpa [hR, hfb] using h1
    | some extra =>
      simp only [hR, hfb, if_neg, ite_false]
      rw [topicsKeyUnion_append]
      exact Finset.mem_union_left _ h1

/-- C1 witness: the amended inclusion at a concrete oracle and batch. -/
theorem C1_wit_assigned_urls_appear :
    validUrlSet [dItemA] \ (engineRounds oracleSingle 3 1 (validUrlSet [dItemA]) []).1
      ⊆ topicsKeyUnion (runFullDigest oracleSingle fbFail [dItemA] 3) :=
  C1_thm_assigned_urls_appear oracleSingle fbFail [dItemA] 3

/-- C2: the claim describes the leftover stage as a total, deterministic,
oracle-free bucketer whose Topic's memberKeys equal the full leftover set.
In `run_full_digest` the leftover stage is a second OpenAI call (lines
431-477): with identical items, two runs that differ only in the external
reply return different summary text, and the appended topic's links are
whatever the model sent back — here empty, not the leftover set. -/
theorem C2_cex_fallback_is_oracle :
    runFullDigest oracleEmpty fbX [dItemA] 3 ≠ runFullDigest oracleEmpty fbY [dItemA] 3
    ∧ runFullDigest oracleEmpty fbX [dItemA] 3 = [⟨"Leftover", "x", []⟩]
    ∧ topicsKeyUnion [(⟨"Leftover", "x", []⟩ : PyTopic)]
        ≠ (engineRounds oracleEmpty 3 1 (validUrlSet [dItemA]) []).1 := by
  decide

/-- C2 (amended): the leftover stage is an external call; the only guarantee
is structural — when the call raises, nothing is appended and the run
returns exactly the round loop's topics. -/
theorem C2_thm_failed_leftover_call (oM : Nat → List PyTopic)
    (items : List DItem) (n : Nat) :
    runFullDigest oM (fun _ => none) items n
      = (engineRounds oM n 1 (validUrlSet items) []).2 := by
  simp only [runFullDigest]
  split <;> rfl

/-- C2 witness: the amended equation at a concrete oracle and batch. -/
theorem C2_wit_failed_leftover_call :
    runFullDigest oracleEmpty (fun _ => none) [dItemA] 3
      = (engineRounds oracleEmpty 3 1 (validUrlSet [dItemA]) []).2 :=
  C2_thm_failed_leftover_call oracleEmpty [dItemA] 3

/-- C3: the claim says no returned Topic other than the fallback bucket has
fewer than 2 member keys, singletons being pooled.  `run_full_digest` has no
singleton pooling: an oracle reply containing a one-member topic is appended
verbatim (line 408) and, the remaining set emptying, no fallback call is
made, so the run returns exactly that one-member non-fallback topic. -/
theorem C3_cex_singleton_topic :
    runFullDigest oracleSingle fbFail [dItemA] 3 = [topicSingle]
    ∧ topicSingle.links.length = 1
    ∧ (engineRounds oracleSingle 3 1 (validUrlSet [dItemA]) []).1 = ∅
    ∧ ¬ (∀ t ∈ runFullDigest oracleSingle fbFail [dItemA] 3, 2 ≤ t.links.length) := by
  decide

/-- C3 (amended): topics are emitted exactly as the oracle returns them —
every Topic in the result is verbatim part of some main-loop reply or of the
leftover call's reply; no size filtering or singleton pooling happens. -/
theorem C3_thm_topics_verbatim (oM : Nat → List PyTopic)
    (oF : Finset String → Option (List PyTopic)) (items : List DItem) (n : Nat)
    (t : PyTopic) (h : t ∈ runFullDigest oM oF items n) :
    (∃ r, t ∈ oM r) ∨ (∃ rem extra, oF rem = some extra ∧ t ∈ extra) := by
  have hmain : ∀ t', t' ∈ (engineRounds oM n 1 (validUrlSet items) []).2 →
      ∃ r, t' ∈ oM r := by
    intro t' h'
    rcases engineRounds_topics_from_oracle oM n 1 (validUrlSet items) [] t' h' with h2 | h2
    · simp at h2
    · exact h2
  simp only [runFullDigest] at h
  by_cases hR : (engineRounds oM n 1 (validUrlSet items) []).1 = ∅
  · rw [if_pos hR] at h
    exact Or.inl (hmain t h)
  · rw [if_neg hR] at h
    cases hfb : oF (engineRounds oM n 1 (validUrlSet items) []).1 with
    | none => rw [hfb] at h; exact Or.inl (hmain t h)
    | some extra =>
      rw [hfb] at h
      rcases List.mem_append.mp h with h2 | h2
      · exact Or.inl (hmain t h2)
      · exact Or.inr ⟨_, extra, hfb, h2⟩

/-- C3 witness: provenance of the concrete singleton topic. -/
theorem C3_wit_topics_verbatim :
    (∃ r, topicSingle ∈ oracleSingle r)
    ∨ (∃ rem extra, fbFail rem = some extra ∧ topicSingle ∈ extra) :=
  C3_thm_topics_verbatim oracleSingle fbFail [dItemA] 3 topicSingle (by decide)

/-- C4: the claim says hallucinated member references never appear in any
finalized Topic's memberKeys.  `run_full_digest` keeps each reply's `links`
verbatim in `all_topics`: with a batch whose only valid url is `a`, a reply
listing `a` and the hallucinated `hX` is returned unchanged, so the
finalized Topic's keys are not a subset of the batch's valid keys. -/
theorem C4_cex_hallucinated_kept :
    runFullDigest oracleHall fbFail [dItemA] 3 = [topicHall]
    ∧ "hX" ∈ topicHall.links
    ∧ ¬ topicsKeyUnion (runFullDigest oracleHall fbFail [dItemA] 3)
        ⊆ validUrlSet [dItemA] := by
  decide

/-- C4 (amended): hallucinated or stale references never corrupt the
remaining set and never cause a failure — `remaining_urls` stays within the
batch's valid keys and only ever loses urls the oracle actually mentioned
(`used_urls` is an intersection with `remaining`) — but they do persist
inside the returned Topics' links. -/
theorem C4_thm_remaining_uncorrupted (oM : Nat → List PyTopic)
    (items : List DItem) (n : Nat) :
    (engineRounds oM n 1 (validUrlSet items) []).1 ⊆ validUrlSet items
    ∧ ∀ (topics : List PyTopic) (R : Finset String), usedUrls topics R ⊆ R :=
  ⟨engineRounds_remaining_subset oM n 1 (validUrlSet items) [],
   fun _ _ => Finset.inter_subset_right⟩

/-- C4 witness: the amended statement at a concrete oracle and batch. -/
theorem C4_wit_remaining_uncorrupted :
    (engineRounds oracleHall 3 1 (validUrlSet [dItemA]) []).1 ⊆ validUrlSet [dItemA]
    ∧ ∀ (topics : List PyTopic) (R : Finset String), usedUrls topics R ⊆ R :=
  C4_thm_remaining_uncorrupted oracleHall [dItemA] 3

/-- C5: the claim says an always-empty oracle makes `run` return exactly one
Topic — the fallback bucket holding every valid-key item.  In the code the
leftover stage is itself an oracle call: when every invocation parses to an
empty topic list the run returns the empty list, not a one-element list. -/
theorem C5_cex_empty_oracle :
    runFullDigest oracleEmpty fbEmpty [dItemA] 3 = []
    ∧ validUrlSet [dItemA] ≠ ∅
    ∧ (runFullDigest oracleEmpty fbEmpty [dItemA] 3).length ≠ 1 := by
  decide

/-- C5 (amended): if the oracle replies with an empty topic list on every
invocation, the round loop breaks in round 1 leaving its state untouched and
the run returns the empty topic list. -/
theorem C5_thm_empty_oracle_returns_nil (items : List DItem) (n : Nat) :
    runFullDigest (fun _ => []) (fun _ => some []) items n = []
    ∧ engineRounds (fun _ => []) n 1 (validUrlSet items) []
        = (validUrlSet items, []) := by
  refine ⟨?_, engineRounds_emptyOracle n 1 (validUrlSet items) []⟩
  simp [runFullDigest, engineRounds_emptyOracle]

/-- C5 witness: the amended statement at a concrete batch. -/
theorem C5_wit_empty_oracle_returns_nil :
    runFullDigest (fun _ => []) (fun _ => some []) [dItemA] 3 = []
    ∧ engineRounds (fun _ => []) 3 1 (validUrlSet [dItemA]) []
        = (validUrlSet [dItemA], []) :=
  C5_thm_empty_oracle_returns_nil [dItemA] 3

/-! ## Claims about the delivery dedup store (C6-C10) -/

/-- C6: the claim states a three-step key derivation chain ending in a
content-hash key, so that even an item with no permalink and a non-URL guid
gets a stable key.  The dedup in `scripts/send_digest.py` derives its key
from the stripped `link` alone (lines 238-239): an item with an empty link
and a URL inside its body gets no key at all and is skipped, so against an
empty store it is not even reported as new. -/
theorem C6_cex_no_fallback_key :
    deriveKey sItemNoLink = none
    ∧ (filterNewWith [] 25 [sItemNoLink] []).newOnes = [] := by
  decide

/-- C6 (amended): the delivery key is the item's stripped link when that is
non-empty and undefined otherwise — a candidate enters `newOnes` exactly
when it has such a key and the key is not in the store; there is no guid or
content-hash fallback step. -/
theorem C6_thm_link_key_governs (enum : List String) (m : Nat) (items : List SItem)
    (store : List String) (x : SItem) :
    x ∈ (filterNewWith enum m items store).newOnes ↔
      x ∈ items ∧ ∃ k, deriveKey x = some k ∧ k ∉ store := by
  rw [newOnes_eq, mem_newItemsOf]
  unfold deriveKey
  by_cases h : pyStrip x.link = "" <;> simp [h]

/-- C6 witness: the amended equivalence at a concrete item and store. -/
theorem C6_wit_link_key_governs :
    sItemA ∈ (filterNewWith [] 25 [sItemA] []).newOnes ↔
      sItemA ∈ [sItemA] ∧ ∃ k, deriveKey sItemA = some k ∧ k ∉ ([] : List String) :=
  C6_thm_link_key_governs [] 25 [sItemA] [] sItemA

/-- C7: the claim states the updated store is the store's keys plus the keys
of all new candidates, deduplicated and truncated.  In the code only the
*delivered* candidates — `new_items[:MAX_ITEMS]` — contribute keys (lines
254, 266): with `MAX_ITEMS = 1` and two new candidates, the second
candidate's key is absent from the updated store, which therefore differs
from the claimed value.  (Moreover line 266 rebuilds the old keys from
`list(sent_links)`, a Python *set*, so their stored order is not preserved
either; the embedding exposes that enumeration as the `enum` parameter.) -/
theorem C7_cex_cap_limits_store :
    (filterNewWith [] 1 [sItemA, sItemB] []).newOnes = [sItemA, sItemB]
    ∧ (filterNewWith [] 1 [sItemA, sItemB] []).updatedStore = ["a"]
    ∧ ["a"] ≠ ["a", "b"] := by
  decide

/-- C7 (amended): a candidate is new iff its key is absent from the store's
key set, `newOnes` preserving input order (it is a filter of the input); and
— when nothing is evicted — the updated store's members are exactly the old
keys plus the keys of the delivered (first `MAX_ITEMS`) new candidates, laid
out as an arbitrary enumeration of the old key set followed by the new keys
in first-seen order. -/
theorem C7_thm_store_contents (enum : List String) (m : Nat) (items : List SItem)
    (store : List String)
    (henum : ∀ v, v ∈ enum ↔ v ∈ store)
    (hnoev :
      (dedupFS [] (enum ++
        (((newItemsOf items store).take m).map (fun x => pyStrip x.link)).filter
          (fun l => decide (l ≠ "")))).length ≤ SENT_LINKS_LIMIT) :
    (filterNewWith enum m items store).newOnes = newItemsOf items store
    ∧ ∀ u, u ∈ (filterNewWith enum m items store).updatedStore ↔
        u ∈ store ∨ ∃ x ∈ (newItemsOf items store).take m, pyStrip x.link = u :=
  ⟨newOnes_eq enum m items store,
   fun u => mem_updatedStore_iff enum m items store u henum hnoev⟩

/-- C7 witness: the amended membership equivalence at a concrete run. -/
theorem C7_wit_store_contents :
    "a" ∈ (filterNewWith [] 25 [sItemA] []).updatedStore ↔
      "a" ∈ ([] : List String)
      ∨ ∃ x ∈ (newItemsOf [sItemA] []).take 25, pyStrip x.link = "a" :=
  (C7_thm_store_contents [] 25 [sItemA] [] (fun _ => Iff.rfl) (by decide)).2 "a"

/-- C8: the claim states that a second `filterNew` call whose candidates are
a subset of the first call's candidates returns an empty `newOnes`, the only
proviso being `SENT_KEYS_LIMIT` eviction.  The `MAX_ITEMS` cap breaks this:
with `MAX_ITEMS = 1` and two new candidates, only the first is recorded, so
the second candidate — a subset member — is reported new again although
nothing was evicted (the store holds 1 of 300 possible entries). -/
theorem C8_cex_cap_breaks_idempotence :
    (filterNewWith [] 1 [sItemA, sItemB] []).updatedStore = ["a"]
    ∧ (filterNewWith ["a"] 1 [sItemB] ["a"]).newOnes = [sItemB]
    ∧ sItemB ∈ [sItemA, sItemB]
    ∧ (dedupFS [] ([] ++
        (((newItemsOf [sItemA, sItemB] []).take 1).map (fun x => pyStrip x.link)).filter
          (fun l => decide (l ≠ "")))).length ≤ SENT_LINKS_LIMIT := by
  decide

/-- C8 (amended): the second call's `newOnes` is empty provided additionally
that the first call could deliver all of its new candidates (their count is
at most the cap) — then, with no eviction, every subset candidate's key is
already in the updated store. -/
theorem C8_thm_idempotent_when_delivered (enum1 enum2 : List String) (m1 m2 : Nat)
    (items1 items2 : List SItem) (store : List String)
    (henum : ∀ v, v ∈ enum1 ↔ v ∈ store)
    (hsub : ∀ x, x ∈ items2 → x ∈ items1)
    (hcap : (newItemsOf items1 store).length ≤ m1)
    (hnoev :
      (dedupFS [] (enum1 ++
        (((newItemsOf items1 store).take m1).map (fun x => pyStrip x.link)).filter
          (fun l => decide (l ≠ "")))).length ≤ SENT_LINKS_LIMIT) :
    (filterNewWith enum2 m2 items2
        (filterNewWith enum1 m1 items1 store).updatedStore).newOnes = [] := by
  rw [newOnes_eq, List.eq_nil_iff_forall_not_mem]
  intro x hx
  rw [mem_newItemsOf] at hx
  obtain ⟨hx2, hkey, hnotin⟩ := hx
  apply hnotin
  rw [mem_updatedStore_iff enum1 m1 items1 store (pyStrip x.link) henum hnoev]
  by_cases hstore : pyStrip x.link ∈ store
  · exact Or.inl hstore
  · have hxnew : x ∈ newItemsOf items1 store :=
      mem_newItemsOf.mpr ⟨hsub x hx2, hkey, hstore⟩
    have htake : (newItemsOf items1 store).take m1 = newItemsOf items1 store :=
      List.take_of_length_le hcap
    exact Or.inr ⟨x, by rw [htake]; exact hxnew, rfl⟩

/-- C8 witness: the amended idempotence at a concrete pair of runs. -/
theorem C8_wit_idempotent_when_delivered :
    (filterNewWith ["a"] 25 [sItemA]
        (filterNewWith [] 25 [sItemA] []).updatedStore).newOnes = [] :=
  C8_thm_idempotent_when_delivered [] ["a"] 25 25 [sItemA] [sItemA] []
    (fun _ => Iff.rfl) (fun _ hx => hx) (by decide) (by decide)

/-- C9: at most `MAX_ITEMS` items are delivered — the sent list is the
`MAX_ITEMS`-prefix of the new candidates — and only delivered items' keys
enter the persisted store: a new candidate beyond the cap (whose key no
delivered item shares) is neither delivered nor recorded in that run. -/
theorem C9_thm_delivery_cap (enum : List String) (m : Nat) (items : List SItem)
    (store : List String) (x : SItem)
    (henum : ∀ v, v ∈ enum ↔ v ∈ store)
    (hx : x ∈ (newItemsOf items store).drop m)
    (hk : pyStrip x.link ∉ ((newItemsOf items store).take m).map (fun y => pyStrip y.link)) :
    (filterNewWith enum m items store).delivered
        = ((filterNewWith enum m items store).newOnes).take m
    ∧ (filterNewWith enum m items store).delivered.length ≤ m
    ∧ x ∉ (filterNewWith enum m items store).delivered
    ∧ pyStrip x.link ∉ (filterNewWith enum m items store).updatedStore := by
  have hxnew : x ∈ newItemsOf items store := List.drop_subset m _ hx
  have hdel := delivered_eq_take enum m items store
  refine ⟨by rw [hdel, newOnes_eq], ?_, ?_, ?_⟩
  · rw [hdel]; exact List.length_take_le m _
  · rw [hdel]
    intro hmem
    exact hk (List.mem_map_of_mem (fun y => pyStrip y.link) hmem)
  · intro hmem
    rcases mem_updatedStore_cases hmem with hs | he | ⟨y, hy, hkey, _⟩
    · exact (mem_newItemsOf.mp hxnew).2.2 hs
    · exact (mem_newItemsOf.mp hxnew).2.2 ((henum _).mp he)
    · exact hk (List.mem_map.mpr ⟨y, hy, hkey⟩)

/-- C9 witness: with a cap of 1 and two new candidates, the second is
neither delivered nor recorded. -/
theorem C9_wit_delivery_cap :
    (filterNewWith [] 1 [sItemA, sItemB] []).delivered
        = ((filterNewWith [] 1 [sItemA, sItemB] []).newOnes).take 1
    ∧ (filterNewWith [] 1 [sItemA, sItemB] []).delivered.length ≤ 1
    ∧ sItemB ∉ (filterNewWith [] 1 [sItemA, sItemB] []).delivered
    ∧ pyStrip sItemB.link ∉ (filterNewWith [] 1 [sItemA, sItemB] []).updatedStore :=
  C9_thm_delivery_cap [] 1 [sItemA, sItemB] [] sItemB
    (fun _ => Iff.rfl) (by decide) (by decide)

/-- C10: a candidate whose link is empty or whitespace-only never enters
`newOnes` (the filter skips it before consulting the seen-key set, line 239)
and contributes no key to the updated store — every stored entry either
pre-existed or is a non-empty key. -/
theorem C10_thm_empty_link_skipped (enum : List String) (m : Nat)
    (items : List SItem) (store : List String) (x : SItem)
    (henum : ∀ v, v ∈ enum ↔ v ∈ store)
    (hx : pyStrip x.link = "") :
    x ∉ (filterNewWith enum m items store).newOnes
    ∧ ∀ u ∈ (filterNewWith enum m items store).updatedStore, u ∈ enum ∨ u ≠ "" := by
  constructor
  · rw [newOnes_eq, mem_newItemsOf]
    rintro ⟨-, hne, -⟩
    exact hne hx
  · intro u hu
    rcases mem_updatedStore_cases hu with hs | he | ⟨-, -, -, hne⟩
    · exact Or.inl ((henum u).mpr hs)
    · exact Or.inl he
    · exact Or.inr hne

/-- C10 witness: a whitespace-only link is skipped and leaves no key. -/
theorem C10_wit_empty_link_skipped :
    sItemBlankLink ∉ (filterNewWith [] 25 [sItemBlankLink, sItemA] []).newOnes
    ∧ ∀ u ∈ (filterNewWith [] 25 [sItemBlankLink, sItemA] []).updatedStore,
        u ∈ ([] : List String) ∨ u ≠ "" :=
  C10_thm_empty_link_skipped [] 25 [sItemBlankLink, sItemA] [] sItemBlankLink
    (fun _ => Iff.rfl) (by decide)
